import Mathlib

/-!
Shallow embedding of the chess rules engine of `chess-grand-master`
(`src/utils/chessLogic.ts`, the `executeMove` state transition of
`src/App.tsx`, and the data model of the unnamed types file).

Conventions of the embedding:
* JavaScript numbers holding board coordinates are modelled as `Int`
  (the sentinel `{row: -1, col: -1}` of `findKing` needs negatives).
* A board is a total function `Int → Int → Option Piece`; every board
  read performed by the source on an in-range square agrees with this
  model, and all reads of the source are guarded by `isWithinBoard`
  except the ones the theorems below make explicit.
* The mutable `moves` accumulator of `getPieceMoves` is modelled by
  list concatenation in the exact push order of the source.
* The `while` ray-cast of sliders is modelled with fuel 8, which is
  enough steps to leave the board from any in-range starting square.
* Fallible code (the TypeScript non-null assertions of `executeMove`)
  returns `Option`.
-/

namespace Chess

/-- `type Color = 'white' | 'black'` from the types file. -/
inductive Color where
  | white
  | black
deriving DecidableEq, Repr

/-- `enum PieceType` from the types file. -/
inductive PieceType where
  | pawn
  | rook
  | knight
  | bishop
  | queen
  | king
deriving DecidableEq, Repr

/-- `interface Position` from the types file. -/
structure Position where
  row : Int
  col : Int
deriving DecidableEq, Repr

/-- `interface Piece` from the types file (`id` is an opaque string used
only for UI continuity). -/
structure Piece where
  id : String
  type : PieceType
  color : Color
  hasMoved : Bool
deriving DecidableEq, Repr

/-- `type Board = (Piece | null)[][]`, modelled as a total function on
integer coordinates. -/
abbrev Board := Int → Int → Option Piece

/-- `interface Move` from the types file.  The TS field holding the
algebraic text is named by a Lean reserved word, so it is `moveText`
here; the optional boolean flags default to `false` (TS `undefined` and
`false` are indistinguishable to every reader of these fields). -/
structure Move where
  fromSq : Position
  toSq : Position
  piece : Piece
  captured : Option Piece := none
  isCastling : Bool := false
  isEnPassant : Bool := false
  isPromotion : Bool := false
  promotedTo : Option PieceType := none
  moveText : String := ""
deriving DecidableEq, Repr

/-- `enum GameStatus` from the types file. -/
inductive GameStatus where
  | MENU
  | PLAYING
  | PAUSED
  | CHECKMATE
  | STALEMATE
  | DRAW
deriving DecidableEq, Repr

/-- The `winner` field of `GameState`: `Color | 'draw' | null`, with the
`null` case carried by an outer `Option`. -/
inductive WinnerVal where
  | color (c : Color)
  | draw
deriving DecidableEq, Repr

/-- Functional update of one square, the model of one array write
`board[r][c] = v` on a freshly copied board. -/
def boardSet (b : Board) (r c : Int) (v : Option Piece) : Board :=
  fun r' c' => if r' = r ∧ c' = c then v else b r' c'

/-- Builds a board from a finite list of occupied squares (a convenience
for the concrete boards used in witnesses; lookups scan the list). -/
def boardOfList (ps : List (Int × Int × Piece)) : Board :=
  fun r c =>
    Option.map (fun e => e.2.2)
      (List.find? (fun e => decide (e.1 = r) && decide (e.2.1 = c)) ps)

/-- `isWithinBoard` (chessLogic.ts line 36):
`row >= 0 && row < 8 && col >= 0 && col < 8`. -/
def isWithinBoard (row col : Int) : Bool :=
  decide (0 ≤ row) && decide (row < 8) && decide (0 ≤ col) && decide (col < 8)

theorem isWithinBoard_iff (row col : Int) :
    isWithinBoard row col = true ↔ 0 ≤ row ∧ row < 8 ∧ 0 ≤ col ∧ col < 8 := by
  simp [isWithinBoard, and_assoc]

/-- The 64 squares in the row-major order of the source's nested
`for (r) for (c)` loops. -/
def squares64 : List Position :=
  (List.range 8).flatMap fun (r : Nat) =>
    (List.range 8).map fun (c : Nat) => ⟨(r : Int), (c : Int)⟩

/-- `findKing` (chessLogic.ts lines 38-46): first square holding that
side's king in scan order, else the sentinel `{row: -1, col: -1}`. -/
def findKing (b : Board) (color : Color) : Position :=
  match squares64.find? (fun sq =>
      match b sq.row sq.col with
      | some p => decide (p.type = PieceType.king) && decide (p.color = color)
      | none => false) with
  | some sq => sq
  | none => ⟨-1, -1⟩

/-- The pawn direction `piece.color === 'white' ? -1 : 1`
(chessLogic.ts line 53). -/
def pawnDir (c : Color) : Int :=
  match c with
  | Color.white => -1
  | Color.black => 1

/-- The body of the knight/king push: a square is pushed when it is
on the board and not occupied by a friendly piece
(chessLogic.ts lines 93-96 and 126-129). -/
def stepMove (b : Board) (myc : Color) (r c : Int) : List Position :=
  if isWithinBoard r c then
    match b r c with
    | none => [⟨r, c⟩]
    | some t => if t.color ≠ myc then [⟨r, c⟩] else []
  else []

/-- `addIfEnemy` (chessLogic.ts lines 63-72). -/
def addEnemy (b : Board) (myc : Color) (r c : Int) : List Position :=
  if isWithinBoard r c then
    match b r c with
    | some t => if t.color ≠ myc then [⟨r, c⟩] else []
    | none => []
  else []

/-- The en passant clause of the pawn generator (chessLogic.ts lines
84-86): when the last move was a pawn moving two rows, landing on the
mover's row in an adjacent column, push the square behind it — with no
`isWithinBoard` guard. -/
def enPassantSquares (pos : Position) (dir : Int) (lm : Option Move) : List Position :=
  match lm with
  | some l =>
    if l.piece.type = PieceType.pawn ∧ (l.fromSq.row - l.toSq.row).natAbs = 2 ∧
        l.toSq.row = pos.row ∧ (l.toSq.col - pos.col).natAbs = 1 then
      [⟨pos.row + dir, l.toSq.col⟩]
    else []
  | none => []

/-- Pawn move generation (chessLogic.ts lines 75-87), in push order:
forward single (with the double step nested under it and gated on
`hasMoved`), the two diagonal captures, then the en passant square
(the source's `dir` local is inlined as `pawnDir piece.color`). -/
def pawnMoves (b : Board) (piece : Piece) (pos : Position) (lm : Option Move) :
    List Position :=
  (if isWithinBoard (pos.row + pawnDir piece.color) pos.col ∧
      b (pos.row + pawnDir piece.color) pos.col = none then
     ⟨pos.row + pawnDir piece.color, pos.col⟩ ::
       (if piece.hasMoved = false ∧
           (isWithinBoard (pos.row + 2 * pawnDir piece.color) pos.col ∧
             b (pos.row + 2 * pawnDir piece.color) pos.col = none) then
          [⟨pos.row + 2 * pawnDir piece.color, pos.col⟩]
        else [])
   else [])
  ++ addEnemy b piece.color (pos.row + pawnDir piece.color) (pos.col - 1)
  ++ addEnemy b piece.color (pos.row + pawnDir piece.color) (pos.col + 1)
  ++ enPassantSquares pos (pawnDir piece.color) lm

/-- Knight move generation (chessLogic.ts lines 89-98), the eight
offsets in the order of the `kMoves` array. -/
def knightMoves (b : Board) (myc : Color) (pos : Position) : List Position :=
  stepMove b myc (pos.row - 2) (pos.col - 1) ++
  stepMove b myc (pos.row - 2) (pos.col + 1) ++
  stepMove b myc (pos.row - 1) (pos.col - 2) ++
  stepMove b myc (pos.row - 1) (pos.col + 2) ++
  stepMove b myc (pos.row + 1) (pos.col - 2) ++
  stepMove b myc (pos.row + 1) (pos.col + 2) ++
  stepMove b myc (pos.row + 2) (pos.col - 1) ++
  stepMove b myc (pos.row + 2) (pos.col + 1)

/-- The slider `while` loop (chessLogic.ts lines 106-118): walk in
direction `(dr, dc)` until the edge, a friendly piece (stop, exclude)
or an enemy piece (stop, include).  Fuel 8 covers every in-range start. -/
def ray (b : Board) (myc : Color) (dr dc : Int) : Nat → Int → Int → List Position
  | 0, _, _ => []
  | fuel + 1, r, c =>
    if isWithinBoard r c then
      match b r c with
      | none => ⟨r, c⟩ :: ray b myc dr dc fuel (r + dr) (c + dc)
      | some t => if t.color ≠ myc then [⟨r, c⟩] else []
    else []

/-- One ray of a slider, started one step away from the piece. -/
def rayFrom (b : Board) (myc : Color) (pos : Position) (dr dc : Int) : List Position :=
  ray b myc dr dc 8 (pos.row + dr) (pos.col + dc)

/-- Direction set of the bishop (chessLogic.ts line 103). -/
def bishopDirections : List (Int × Int) := [(-1, -1), (-1, 1), (1, -1), (1, 1)]

/-- Direction set of the rook (chessLogic.ts line 104). -/
def rookDirections : List (Int × Int) := [(-1, 0), (1, 0), (0, -1), (0, 1)]

/-- Direction set of the queen (chessLogic.ts line 105). -/
def queenDirections : List (Int × Int) :=
  [(-1, -1), (-1, 1), (1, -1), (1, 1), (-1, 0), (1, 0), (0, -1), (0, 1)]

/-- Slider move generation: concatenation of the rays in direction
order (the `directions.forEach` of chessLogic.ts lines 106-118). -/
def sliderMoves (b : Board) (myc : Color) (dirs : List (Int × Int)) (pos : Position) :
    List Position :=
  dirs.flatMap fun d => rayFrom b myc pos d.1 d.2

/-- King one-step move generation (chessLogic.ts lines 122-131), the
double loop `dr = -1..1, dc = -1..1` skipping `(0,0)`, unrolled in
iteration order. -/
def kingBasicMoves (b : Board) (myc : Color) (pos : Position) : List Position :=
  stepMove b myc (pos.row - 1) (pos.col - 1) ++
  stepMove b myc (pos.row - 1) pos.col ++
  stepMove b myc (pos.row - 1) (pos.col + 1) ++
  stepMove b myc pos.row (pos.col - 1) ++
  stepMove b myc pos.row (pos.col + 1) ++
  stepMove b myc (pos.row + 1) (pos.col - 1) ++
  stepMove b myc (pos.row + 1) pos.col ++
  stepMove b myc (pos.row + 1) (pos.col + 1)

/-- Castling destinations pushed by the generator (chessLogic.ts lines
132-144): only when the king is unmoved and `ignoreCheck` is false;
kingside needs an unmoved rook on column 7 and empty columns 5 and 6,
queenside an unmoved rook on column 0 and empty columns 1, 2 and 3.
No attack condition is tested here. -/
def castleMoves (b : Board) (piece : Piece) (pos : Position) (ignoreCheck : Bool) :
    List Position :=
  if piece.hasMoved = false ∧ ignoreCheck = false then
    (match b pos.row 7 with
     | some rk =>
       if rk.type = PieceType.rook ∧ rk.hasMoved = false ∧
           b pos.row 5 = none ∧ b pos.row 6 = none then
         [⟨pos.row, 6⟩]
       else []
     | none => []) ++
    (match b pos.row 0 with
     | some rk =>
       if rk.type = PieceType.rook ∧ rk.hasMoved = false ∧
           b pos.row 1 = none ∧ b pos.row 2 = none ∧ b pos.row 3 = none then
         [⟨pos.row, 2⟩]
       else []
     | none => [])
  else []

/-- `getPieceMoves` (chessLogic.ts lines 48-148). -/
def getPieceMoves (b : Board) (pos : Position) (lm : Option Move)
    (ignoreCheck : Bool) : List Position :=
  match b pos.row pos.col with
  | none => []
  | some piece =>
    match piece.type with
    | PieceType.pawn => pawnMoves b piece pos lm
    | PieceType.knight => knightMoves b piece.color pos
    | PieceType.bishop => sliderMoves b piece.color bishopDirections pos
    | PieceType.rook => sliderMoves b piece.color rookDirections pos
    | PieceType.queen => sliderMoves b piece.color queenDirections pos
    | PieceType.king => kingBasicMoves b piece.color pos ++ castleMoves b piece pos ignoreCheck

/-- `isSquareAttacked` (chessLogic.ts lines 150-161): some piece of the
attacker has `pos` in its pseudo-legal set computed with
`lastMove = null` and `ignoreCheck = true`. -/
def isSquareAttacked (b : Board) (pos : Position) (attacker : Color) : Bool :=
  squares64.any fun sq =>
    match b sq.row sq.col with
    | some p =>
      decide (p.color = attacker) &&
        (getPieceMoves b sq none true).any fun m =>
          decide (m.row = pos.row) && decide (m.col = pos.col)
    | none => false

/-- The opponent of a color (`color === 'white' ? 'black' : 'white'`). -/
def oppositeColor (c : Color) : Color :=
  match c with
  | Color.white => Color.black
  | Color.black => Color.white

/-- `isKingInCheck` (chessLogic.ts lines 163-167). -/
def isKingInCheck (b : Board) (color : Color) : Bool :=
  let kingPos := findKing b color
  if kingPos.row = -1 then false
  else isSquareAttacked b kingPos (oppositeColor color)

/-- The simulated board of the legality filter (chessLogic.ts lines
176-185): copy, place the piece (with `hasMoved := true`) on the
candidate square, clear the source, and for a pawn moving diagonally
onto an empty square also clear the square one rank behind the
destination in the direction opposite the mover's advance. -/
def simBoard (b : Board) (pos : Position) (piece : Piece) (m : Position) : Board :=
  let target := b m.row m.col
  let b1 := boardSet (boardSet b m.row m.col (some { piece with hasMoved := true }))
    pos.row pos.col none
  if piece.type = PieceType.pawn ∧ m.col ≠ pos.col ∧ target = none then
    boardSet b1 (m.row + (if piece.color = Color.white then 1 else -1)) m.col none
  else b1

/-- The intermediate-square board of the castling test (chessLogic.ts
lines 192-195): the king copied onto the step column (hasMoved
unchanged), source cleared, rook untouched. -/
def castleStepBoard (b : Board) (pos : Position) (piece : Piece) (m : Position) : Board :=
  let stepCol := if m.col > pos.col then pos.col + 1 else pos.col - 1
  boardSet (boardSet b pos.row stepCol (some piece)) pos.row pos.col none

/-- The filter predicate of `getLegalMoves` (chessLogic.ts lines
174-200): reject when the simulated move leaves the mover's king in
check; additionally reject a two-column king move when the king is
currently in check or the intermediate square is attacked. -/
def legalFilter (b : Board) (pos : Position) (piece : Piece) (m : Position) : Bool :=
  if isKingInCheck (simBoard b pos piece m) piece.color then false
  else if piece.type = PieceType.king ∧ (m.col - pos.col).natAbs = 2 then
    if isKingInCheck b piece.color then false
    else if isKingInCheck (castleStepBoard b pos piece m) piece.color then false
    else true
  else true

/-- `getLegalMoves` (chessLogic.ts lines 169-201). -/
def getLegalMoves (b : Board) (pos : Position) (lm : Option Move) : List Position :=
  match b pos.row pos.col with
  | none => []
  | some piece => (getPieceMoves b pos lm false).filter (legalFilter b pos piece)

/-- `getAllLegalMoves` (chessLogic.ts lines 203-222): every legal
destination of every piece of the side, as a `Move` record with empty
text, in board scan order. -/
def getAllLegalMoves (b : Board) (color : Color) (lm : Option Move) : List Move :=
  squares64.flatMap fun sq =>
    match b sq.row sq.col with
    | some p =>
      if p.color = color then
        (getLegalMoves b sq lm).map fun dst =>
          { fromSq := sq, toSq := dst, piece := p, moveText := "" }
      else []
    | none => []

/-- The file-letter array `cols = ['a',...,'h']` of `getAlgebraicNotation`
(chessLogic.ts line 7), indexed by an integer column. -/
def colLetterJS (c : Int) : String :=
  if c = 0 then "a" else if c = 1 then "b" else if c = 2 then "c"
  else if c = 3 then "d" else if c = 4 then "e" else if c = 5 then "f"
  else if c = 6 then "g" else if c = 7 then "h" else "undefined"

/-- The rank-digit array `rows = ['8',...,'1']` of `getAlgebraicNotation`
(chessLogic.ts line 8), indexed by an integer row. -/
def rowDigitJS (r : Int) : String :=
  if r = 0 then "8" else if r = 1 then "7" else if r = 2 then "6"
  else if r = 3 then "5" else if r = 4 then "4" else if r = 5 then "3"
  else if r = 6 then "2" else if r = 7 then "1" else "undefined"

/-- The `pieceLetter` map of `getAlgebraicNotation`
(chessLogic.ts lines 15-22). -/
def pieceLetterJS (t : PieceType) : String :=
  match t with
  | PieceType.pawn => ""
  | PieceType.knight => "N"
  | PieceType.bishop => "B"
  | PieceType.rook => "R"
  | PieceType.queen => "Q"
  | PieceType.king => "K"

/-- `getAlgebraicNotation` (chessLogic.ts lines 6-34); the TS name ends
in a Lean-reserved word, hence the name here. -/
def toAlgebraicText (fromSq toSq : Position) (piece : Piece)
    (captured check mate : Bool) : String :=
  if piece.type = PieceType.king ∧ (fromSq.col - toSq.col).natAbs = 2 then
    if toSq.col > fromSq.col then "O-O" else "O-O-O"
  else
    pieceLetterJS piece.type
    ++ (if captured then
          (if piece.type = PieceType.pawn then colLetterJS fromSq.col else "") ++ "x"
        else "")
    ++ colLetterJS toSq.col ++ rowDigitJS toSq.row
    ++ (if mate then "#" else if check then "+" else "")

/-- Modelled from the spec's words for the refinement comparison of the
notation claim: file letters map column 0..7 to 'a'..'h' by character
arithmetic, rank digits map row 0..7 to '8'..'1'. -/
def specFileLetter (c : Int) : String :=
  (Char.ofNat (97 + c.toNat)).toString

/-- Modelled from the spec's words: rank digit of a row, row 0 is '8'. -/
def specRankDigit (r : Int) : String :=
  (Char.ofNat (48 + (8 - r).toNat)).toString

/-- Modelled from the spec's words: archetype letter. -/
def specPieceLetter (t : PieceType) : String :=
  match t with
  | PieceType.pawn => ""
  | PieceType.knight => "N"
  | PieceType.bishop => "B"
  | PieceType.rook => "R"
  | PieceType.queen => "Q"
  | PieceType.king => "K"

/-- Modelled from the spec's words (claim on notation): "O-O" exactly
when the piece is a king and the destination column is two greater,
"O-O-O" when two lower, never with a suffix; otherwise archetype letter,
then for a capture the pawn mover's origin file letter followed by "x",
then destination file letter and rank digit, then "#" if mate else "+"
if check else nothing. -/
def algebraicSpecText (fromSq toSq : Position) (piece : Piece)
    (captured check mate : Bool) : String :=
  if piece.type = PieceType.king ∧ toSq.col = fromSq.col + 2 then "O-O"
  else if piece.type = PieceType.king ∧ toSq.col = fromSq.col - 2 then "O-O-O"
  else
    specPieceLetter piece.type
    ++ (if captured then
          (if piece.type = PieceType.pawn then specFileLetter fromSq.col else "") ++ "x"
        else "")
    ++ specFileLetter toSq.col ++ specRankDigit toSq.row
    ++ (if mate then "#" else if check then "+" else "")

/-- The slice of `GameState` that `executeMove` reads for the rules
outcome (`App.tsx`): the board and the side to move. -/
structure GameStateSlice where
  board : Board
  currentPlayer : Color

/-- The rule-relevant slice of the state produced by `executeMove`
(`App.tsx` lines 156-176): new board, next player, status, winner and
the committed move record (the history append, captured trays and
timers are presentation bookkeeping over these same values). -/
structure ExecResult where
  board : Board
  currentPlayer : Color
  status : GameStatus
  winner : Option WinnerVal
  lastMove : Move

/-- The castling arm of `executeMove` (`App.tsx` lines 121-129): when
the (possibly promoted) piece is a king moving exactly two columns,
relocate the rook of that wing; the TS non-null assertion on the rook
becomes `none` here when the rook square is empty. -/
def castlingRookStep (nb0 : Board) (fromSq toSq : Position) (piece1 : Piece) :
    Option (Board × Bool) :=
  if piece1.type = PieceType.king ∧ (fromSq.col - toSq.col).natAbs = 2 then
    let rookCol : Int := if toSq.col > fromSq.col then 7 else 0
    let rookNewCol : Int := if toSq.col > fromSq.col then 5 else 3
    match nb0 fromSq.row rookCol with
    | none => none
    | some rk =>
      some (boardSet (boardSet nb0 fromSq.row rookCol none) fromSq.row rookNewCol
              (some { rk with hasMoved := true }), true)
  else some (nb0, false)

/-- The en passant test of `executeMove` (`App.tsx` line 132):
`piece.type === PAWN && from.col !== to.col && !captured`. -/
def execIsEnPassant (piece1 : Piece) (fromSq toSq : Position)
    (captured : Option Piece) : Bool :=
  decide (piece1.type = PieceType.pawn) && decide (fromSq.col ≠ toSq.col) &&
    decide (captured = none)

/-- The en passant victim direction of `executeMove` (`App.tsx` line
134): `piece.color === 'white' ? 1 : -1`. -/
def execDir (piece1 : Piece) : Int :=
  if piece1.color = Color.white then 1 else -1

/-- The captured piece after the en passant adjustment (`App.tsx` lines
110-137): the piece on the square behind the destination for an en
passant move, the destination occupant otherwise. -/
def execFinalCaptured (nb1 : Board) (fromSq toSq : Position) (piece1 : Piece)
    (captured : Option Piece) : Option Piece :=
  if execIsEnPassant piece1 fromSq toSq captured then
    nb1 (toSq.row + execDir piece1) toSq.col
  else captured

/-- The board after the en passant victim is cleared (`App.tsx` line
136), before the mover's own writes. -/
def execBoardAfterEp (nb1 : Board) (fromSq toSq : Position) (piece1 : Piece)
    (captured : Option Piece) : Board :=
  if execIsEnPassant piece1 fromSq toSq captured then
    boardSet nb1 (toSq.row + execDir piece1) toSq.col none
  else nb1

/-- The final board of `executeMove` (`App.tsx` lines 139-140): place
the moved piece on the destination, clear the source. -/
def execBoardAfter (nb1 : Board) (fromSq toSq : Position) (piece1 : Piece)
    (captured : Option Piece) : Board :=
  boardSet (boardSet (execBoardAfterEp nb1 fromSq toSq piece1 captured)
    toSq.row toSq.col (some piece1)) fromSq.row fromSq.col none

/-- The partial move record passed to `getAllLegalMoves` for the
terminal check (`App.tsx` lines 146-152): flags left unset, empty text. -/
def probeMove (fromSq toSq : Position) (piece1 : Piece)
    (finalCaptured : Option Piece) : Move :=
  { fromSq := fromSq, toSq := toSq, piece := piece1, captured := finalCaptured,
    moveText := "" }

/-- The committed move record of `executeMove` (`App.tsx` lines
156-161), with flags set and the algebraic text rendered. -/
def committedMove (fromSq toSq : Position) (promotedTo : Option PieceType)
    (piece1 : Piece) (isCastling isEp : Bool) (finalCaptured : Option Piece)
    (check mate : Bool) : Move :=
  { fromSq := fromSq, toSq := toSq, piece := piece1, captured := finalCaptured,
    isCastling := isCastling, isEnPassant := isEp,
    isPromotion := promotedTo.isSome, promotedTo := promotedTo,
    moveText := toAlgebraicText fromSq toSq piece1 finalCaptured.isSome check mate }

/-- The tail of `executeMove` (`App.tsx` lines 131-176) after the source
piece has been read and the castling rook relocated: en passant capture,
the final two writes, the flip of the side to move, and the
check/checkmate/stalemate classification of the resulting position. -/
def finishMove (prev : GameStateSlice) (fromSq toSq : Position)
    (promotedTo : Option PieceType) (nb1 : Board) (isCastling : Bool)
    (piece1 : Piece) (captured : Option Piece) : ExecResult :=
  let finalCaptured := execFinalCaptured nb1 fromSq toSq piece1 captured
  let nb := execBoardAfter nb1 fromSq toSq piece1 captured
  let nextPlayer := oppositeColor prev.currentPlayer
  let check := isKingInCheck nb nextPlayer
  let moves := getAllLegalMoves nb nextPlayer
    (some (probeMove fromSq toSq piece1 finalCaptured))
  let mate := check && decide (moves.length = 0)
  let stalemate := !check && decide (moves.length = 0)
  { board := nb
    currentPlayer := nextPlayer
    status :=
      if mate then GameStatus.CHECKMATE
      else if stalemate then GameStatus.STALEMATE
      else GameStatus.PLAYING
    winner :=
      if mate then some (WinnerVal.color prev.currentPlayer)
      else if stalemate then some WinnerVal.draw
      else none
    lastMove := committedMove fromSq toSq promotedTo piece1 isCastling
      (execIsEnPassant piece1 fromSq toSq captured) finalCaptured check mate }

/-- The moved piece of `executeMove` (`App.tsx` lines 109 and 115-118):
the source piece with `hasMoved := true`, its archetype overwritten when
a promotion archetype is supplied. -/
def execPiece1 (p0 : Piece) (promotedTo : Option PieceType) : Piece :=
  let piece0 : Piece := { p0 with hasMoved := true }
  match promotedTo with
  | some t => { piece0 with type := t }
  | none => piece0

/-- `executeMove` (`App.tsx` lines 106-179), restricted to the
rule-relevant state slice; the TS non-null assertions become `none`. -/
def executeMove (prev : GameStateSlice) (fromSq toSq : Position)
    (promotedTo : Option PieceType) : Option ExecResult :=
  match prev.board fromSq.row fromSq.col with
  | none => none
  | some p0 =>
    let captured := prev.board toSq.row toSq.col
    let piece1 := execPiece1 p0 promotedTo
    match castlingRookStep prev.board fromSq toSq piece1 with
    | none => none
    | some (nb1, isC) =>
      some (finishMove prev fromSq toSq promotedTo nb1 isC piece1 captured)

/-! ### Concrete pieces and boards used by witnesses and counterexamples -/

/-- A white king that has already moved. -/
def wKpc : Piece := ⟨"wk", PieceType.king, Color.white, true⟩

/-- A black king that has already moved. -/
def bKpc : Piece := ⟨"bk", PieceType.king, Color.black, true⟩

/-- A black king that has not moved. -/
def bKu : Piece := ⟨"bku", PieceType.king, Color.black, false⟩

/-- A white queen. -/
def wQpc : Piece := ⟨"wq", PieceType.queen, Color.white, true⟩

/-- A white rook. -/
def wRpc : Piece := ⟨"wr", PieceType.rook, Color.white, true⟩

/-- A black rook that has not moved. -/
def bRu : Piece := ⟨"br", PieceType.rook, Color.black, false⟩

/-- A white pawn that has already moved. -/
def wPpc : Piece := ⟨"wp", PieceType.pawn, Color.white, true⟩

/-- A black pawn that has already moved. -/
def bPpc : Piece := ⟨"bp", PieceType.pawn, Color.black, true⟩

/-- A black pawn that has not moved. -/
def bPu : Piece := ⟨"bp2", PieceType.pawn, Color.black, false⟩

/-- A black knight. -/
def bNpc : Piece := ⟨"bn", PieceType.knight, Color.black, true⟩

/-- Board with a lone white king on (7,4). -/
def bLoneWK : Board := boardOfList [(7, 4, wKpc)]

/-- Board for the duplicate-destination scenario: white pawn on (3,3),
black pawn on (3,4) (which just double-stepped), black knight on (2,4). -/
def bDup : Board := boardOfList [(3, 3, wPpc), (3, 4, bPpc), (2, 4, bNpc)]

/-- The double-step move record of the black pawn onto (3,4). -/
def lmDup : Move := { fromSq := ⟨1, 4⟩, toSq := ⟨3, 4⟩, piece := bPpc }

/-- Board with a single white pawn on the back rank square (0,0). -/
def bEdgePawn : Board := boardOfList [(0, 0, wPpc)]

/-- A well-formed (in-range) but adversarial move record: a pawn said to
have moved two rows and landed on (0,1). -/
def lmEdge : Move := { fromSq := ⟨2, 1⟩, toSq := ⟨0, 1⟩, piece := bPpc }

/-- Board with a lone unmoved black king on (0,5) — not its home column. -/
def bOffHomeKing : Board := boardOfList [(0, 5, bKu)]

/-- Board with an unmoved black king on its home square (0,4) and an
unmoved black rook on (0,7), the kingside castling layout. -/
def bCastleReady : Board := boardOfList [(0, 4, bKu), (0, 7, bRu)]

/-- The castling layout plus a white rook on (4,4) giving check. -/
def bCastleChecked : Board := boardOfList [(0, 4, bKu), (0, 7, bRu), (4, 4, wRpc)]

/-- Board with a lone unmoved black pawn on (1,0). -/
def bPawnStart : Board := boardOfList [(1, 0, bPu)]

/-- Pre-move state of the mate witness: black king (0,7), white king
(2,5), white queen (1,1), white to move. -/
def prevMate : GameStateSlice :=
  { board := boardOfList [(0, 7, bKpc), (2, 5, wKpc), (1, 1, wQpc)]
    currentPlayer := Color.white }

/-! ### Helper lemmas -/

theorem mem_stepMove {b : Board} {myc : Color} {r c : Int} {m : Position}
    (h : m ∈ stepMove b myc r c) : m = ⟨r, c⟩ ∧ isWithinBoard r c = true := by
  unfold stepMove at h
  cases hw : isWithinBoard r c with
  | false => simp [hw] at h
  | true =>
    refine ⟨?_, rfl⟩
    rw [hw] at h
    simp only [if_true] at h
    cases hb : b r c with
    | none => rw [hb] at h; simpa using h
    | some t =>
      rw [hb] at h
      by_cases ht : t.color ≠ myc <;> simp [ht] at h <;> simp [h]

theorem mem_addEnemy {b : Board} {myc : Color} {r c : Int} {m : Position}
    (h : m ∈ addEnemy b myc r c) : m = ⟨r, c⟩ ∧ isWithinBoard r c = true := by
  unfold addEnemy at h
  cases hw : isWithinBoard r c with
  | false => simp [hw] at h
  | true =>
    refine ⟨?_, rfl⟩
    rw [hw] at h
    simp only [if_true] at h
    cases hb : b r c with
    | none => rw [hb] at h; simp at h
    | some t =>
      rw [hb] at h
      by_cases ht : t.color ≠ myc <;> simp [ht] at h <;> simp [h]

theorem mem_ray_within {b : Board} {myc : Color} {dr dc : Int} {m : Position} :
    ∀ (fuel : Nat) (r c : Int), m ∈ ray b myc dr dc fuel r c →
      isWithinBoard m.row m.col = true := by
  intro fuel
  induction fuel with
  | zero => intro r c h; simp [ray] at h
  | succ n ih =>
    intro r c h
    unfold ray at h
    cases hw : isWithinBoard r c with
    | false => simp [hw] at h
    | true =>
      rw [hw] at h
      simp only [if_true] at h
      cases hb : b r c with
      | none =>
        rw [hb] at h
        rcases List.mem_cons.mp h with rfl | h
        · exact hw
        · exact ih _ _ h
      | some t =>
        rw [hb] at h
        by_cases ht : t.color ≠ myc <;> simp [ht] at h
        subst h; exact hw

theorem mem_kingBasicMoves_col {b : Board} {myc : Color} {pos : Position} {m : Position}
    (h : m ∈ kingBasicMoves b myc pos) :
    m.col = pos.col - 1 ∨ m.col = pos.col ∨ m.col = pos.col + 1 := by
  unfold kingBasicMoves at h
  rcases List.mem_append.mp h with h | h
  rotate_left
  · obtain ⟨rfl, -⟩ := mem_stepMove h; right; right; rfl
  rcases List.mem_append.mp h with h | h
  rotate_left
  · obtain ⟨rfl, -⟩ := mem_stepMove h; right; left; rfl
  rcases List.mem_append.mp h with h | h
  rotate_left
  · obtain ⟨rfl, -⟩ := mem_stepMove h; left; rfl
  rcases List.mem_append.mp h with h | h
  rotate_left
  · obtain ⟨rfl, -⟩ := mem_stepMove h; right; right; rfl
  rcases List.mem_append.mp h with h | h
  rotate_left
  · obtain ⟨rfl, -⟩ := mem_stepMove h; left; rfl
  rcases List.mem_append.mp h with h | h
  rotate_left
  · obtain ⟨rfl, -⟩ := mem_stepMove h; right; right; rfl
  rcases List.mem_append.mp h with h | h
  · obtain ⟨rfl, -⟩ := mem_stepMove h; left; rfl
  · obtain ⟨rfl, -⟩ := mem_stepMove h; right; left; rfl

theorem mem_knightMoves_within {b : Board} {myc : Color} {pos m : Position}
    (h : m ∈ knightMoves b myc pos) : isWithinBoard m.row m.col = true := by
  simp only [knightMoves, List.mem_append] at h
  rcases h with ((((((h | h) | h) | h) | h) | h) | h) | h <;>
    (obtain ⟨rfl, hwb⟩ := mem_stepMove h; exact hwb)

theorem mem_kingBasicMoves_within {b : Board} {myc : Color} {pos m : Position}
    (h : m ∈ kingBasicMoves b myc pos) : isWithinBoard m.row m.col = true := by
  simp only [kingBasicMoves, List.mem_append] at h
  rcases h with ((((((h | h) | h) | h) | h) | h) | h) | h <;>
    (obtain ⟨rfl, hwb⟩ := mem_stepMove h; exact hwb)

theorem mem_sliderMoves_within {b : Board} {myc : Color} {dirs : List (Int × Int)}
    {pos m : Position} (h : m ∈ sliderMoves b myc dirs pos) :
    isWithinBoard m.row m.col = true := by
  unfold sliderMoves at h
  rcases List.mem_flatMap.mp h with ⟨d, -, hray⟩
  unfold rayFrom at hray
  exact mem_ray_within 8 _ _ hray

theorem mem_squares64_bounds {sq : Position} (h : sq ∈ squares64) :
    0 ≤ sq.row ∧ sq.row < 8 ∧ 0 ≤ sq.col ∧ sq.col < 8 := by
  unfold squares64 at h
  rcases List.mem_flatMap.mp h with ⟨r, hr, hsq⟩
  rcases List.mem_map.mp hsq with ⟨c, hc, rfl⟩
  rw [List.mem_range] at hr hc
  refine ⟨?_, ?_, ?_, ?_⟩
  · show (0 : Int) ≤ (r : Int)
    omega
  · show (r : Int) < 8
    omega
  · show (0 : Int) ≤ (c : Int)
    omega
  · show (c : Int) < 8
    omega

/-- The empty board (no piece anywhere). -/
def emptyBoard : Board := fun _ _ => none

theorem pieceLetterJS_eq_spec (t : PieceType) : pieceLetterJS t = specPieceLetter t := by
  cases t <;> rfl

theorem colLetterJS_eq_spec {c : Int} (h0 : 0 ≤ c) (h8 : c < 8) :
    colLetterJS c = specFileLetter c := by
  interval_cases c <;> decide

theorem rowDigitJS_eq_spec {r : Int} (h0 : 0 ≤ r) (h8 : r < 8) :
    rowDigitJS r = specRankDigit r := by
  interval_cases r <;> decide

theorem enPassantSquares_congr (pos : Position) (dir : Int) {l1 l2 : Move}
    (h1 : l1.piece.type = l2.piece.type) (h2 : l1.fromSq.row = l2.fromSq.row)
    (h3 : l1.toSq.row = l2.toSq.row) (h4 : l1.toSq.col = l2.toSq.col) :
    enPassantSquares pos dir (some l1) = enPassantSquares pos dir (some l2) := by
  show (if l1.piece.type = PieceType.pawn ∧ (l1.fromSq.row - l1.toSq.row).natAbs = 2 ∧
        l1.toSq.row = pos.row ∧ (l1.toSq.col - pos.col).natAbs = 1 then
      [(⟨pos.row + dir, l1.toSq.col⟩ : Position)]
    else []) =
    (if l2.piece.type = PieceType.pawn ∧ (l2.fromSq.row - l2.toSq.row).natAbs = 2 ∧
        l2.toSq.row = pos.row ∧ (l2.toSq.col - pos.col).natAbs = 1 then
      [(⟨pos.row + dir, l2.toSq.col⟩ : Position)]
    else [])
  rw [h1, h2, h3, h4]

theorem getPieceMoves_congr_lastMove (b : Board) (pos : Position) (ig : Bool)
    {l1 l2 : Move} (h1 : l1.piece.type = l2.piece.type)
    (h2 : l1.fromSq.row = l2.fromSq.row) (h3 : l1.toSq.row = l2.toSq.row)
    (h4 : l1.toSq.col = l2.toSq.col) :
    getPieceMoves b pos (some l1) ig = getPieceMoves b pos (some l2) ig := by
  unfold getPieceMoves
  cases hb : b pos.row pos.col with
  | none => rfl
  | some piece =>
    obtain ⟨pid, ptype, pcolor, pmoved⟩ := piece
    cases ptype with
    | pawn =>
      show pawnMoves b ⟨pid, PieceType.pawn, pcolor, pmoved⟩ pos (some l1) =
        pawnMoves b ⟨pid, PieceType.pawn, pcolor, pmoved⟩ pos (some l2)
      unfold pawnMoves
      congr 1
      exact enPassantSquares_congr _ _ h1 h2 h3 h4
    | knight => rfl
    | bishop => rfl
    | rook => rfl
    | queen => rfl
    | king => rfl

theorem getLegalMoves_congr_lastMove (b : Board) (pos : Position)
    {l1 l2 : Move} (h1 : l1.piece.type = l2.piece.type)
    (h2 : l1.fromSq.row = l2.fromSq.row) (h3 : l1.toSq.row = l2.toSq.row)
    (h4 : l1.toSq.col = l2.toSq.col) :
    getLegalMoves b pos (some l1) = getLegalMoves b pos (some l2) := by
  unfold getLegalMoves
  cases hb : b pos.row pos.col with
  | none => rfl
  | some piece =>
    show ((getPieceMoves b pos (some l1) false).filter (legalFilter b pos piece)) =
      ((getPieceMoves b pos (some l2) false).filter (legalFilter b pos piece))
    rw [getPieceMoves_congr_lastMove b pos false h1 h2 h3 h4]

theorem getAllLegalMoves_congr_lastMove (b : Board) (color : Color)
    {l1 l2 : Move} (h1 : l1.piece.type = l2.piece.type)
    (h2 : l1.fromSq.row = l2.fromSq.row) (h3 : l1.toSq.row = l2.toSq.row)
    (h4 : l1.toSq.col = l2.toSq.col) :
    getAllLegalMoves b color (some l1) = getAllLegalMoves b color (some l2) := by
  unfold getAllLegalMoves
  congr 1
  funext sq
  cases hb : b sq.row sq.col with
  | none => rfl
  | some p =>
    rw [getLegalMoves_congr_lastMove b sq h1 h2 h3 h4]

theorem getAllLegalMoves_committed_eq_probe (b : Board) (color : Color)
    (fromSq toSq : Position) (promo : Option PieceType) (piece1 : Piece)
    (isC isEp : Bool) (fc : Option Piece) (check mate : Bool) :
    getAllLegalMoves b color
        (some (committedMove fromSq toSq promo piece1 isC isEp fc check mate)) =
      getAllLegalMoves b color (some (probeMove fromSq toSq piece1 fc)) :=
  getAllLegalMoves_congr_lastMove b color rfl rfl rfl rfl

theorem finishMove_classification (prev : GameStateSlice) (fromSq toSq : Position)
    (promo : Option PieceType) (nb1 : Board) (isC : Bool) (piece1 : Piece)
    (captured : Option Piece) (res : ExecResult)
    (hres : res = finishMove prev fromSq toSq promo nb1 isC piece1 captured) :
    res.currentPlayer = oppositeColor prev.currentPlayer ∧
    ((getAllLegalMoves res.board res.currentPlayer (some res.lastMove) = [] ∧
        isKingInCheck res.board res.currentPlayer = true) →
      res.status = GameStatus.CHECKMATE ∧
        res.winner = some (WinnerVal.color prev.currentPlayer)) ∧
    ((getAllLegalMoves res.board res.currentPlayer (some res.lastMove) = [] ∧
        isKingInCheck res.board res.currentPlayer = false) →
      res.status = GameStatus.STALEMATE ∧ res.winner = some WinnerVal.draw) ∧
    (getAllLegalMoves res.board res.currentPlayer (some res.lastMove) ≠ [] →
      res.status = GameStatus.PLAYING ∧ res.winner = none) := by
  subst hres
  simp only [finishMove]
  refine ⟨trivial, ?_, ?_, ?_⟩
  · rintro ⟨hM, hC⟩
    rw [getAllLegalMoves_committed_eq_probe] at hM
    simp [hM, hC]
  · rintro ⟨hM, hC⟩
    rw [getAllLegalMoves_committed_eq_probe] at hM
    simp [hM, hC]
  · intro hNE
    rw [getAllLegalMoves_committed_eq_probe] at hNE
    have hlen : ((getAllLegalMoves (execBoardAfter nb1 fromSq toSq piece1 captured)
        (oppositeColor prev.currentPlayer)
        (some (probeMove fromSq toSq piece1
          (execFinalCaptured nb1 fromSq toSq piece1 captured)))).length = 0) = False := by
      simp [List.length_eq_zero]
      exact hNE
    simp [hlen]

/-! ### Claim theorems -/

/-- Claim C3: for every board, position and last-move context, the legal
move list is obtained from the pseudo-legal list (`ignoreCastling =
false`) by a filter, hence it is a sublist: every legal destination is
pseudo-legal and the elements keep the generator's insertion order. -/
theorem getLegalMoves_sublist_pseudoLegal (b : Board) (p : Position) (lm : Option Move) :
    (getLegalMoves b p lm).Sublist (getPieceMoves b p lm false) := by
  unfold getLegalMoves
  cases hb : b p.row p.col with
  | none => simp
  | some piece => exact List.filter_sublist _

/-- Claim C10: on a board where the enemy pawn's double step landed next
to the mover and an enemy piece stands on the square diagonally behind
it, `getPieceMoves` pushes that square twice — once as a diagonal
capture and once as the en passant square — so the output is not
duplicate-free. -/
theorem en_passant_duplicate_destination :
    getPieceMoves bDup ⟨3, 3⟩ (some lmDup) false = [⟨2, 3⟩, ⟨2, 4⟩, ⟨2, 4⟩] ∧
    ¬ (getPieceMoves bDup ⟨3, 3⟩ (some lmDup) false).Nodup := by
  constructor
  · decide
  · decide

/-- Claim C7 is refuted by this input: a white pawn on (0,0) together
with an in-range but adversarial last-move record landing on (0,1)
makes the en passant rule push the off-board square (-1,1); the push of
the en passant destination is not gated by `isWithinBoard`. -/
theorem en_passant_escapes_board :
    (⟨-1, 1⟩ : Position) ∈ getPieceMoves bEdgePawn ⟨0, 0⟩ (some lmEdge) false ∧
    isWithinBoard (-1) 1 = false := by
  constructor
  · decide
  · decide

/-- Claim C5 is refuted by this input: an unmoved black king on (0,5)
receives the destination (0,6) from the ordinary one-step king rule
even though there is no rook on (0,7) at all, so "(row,6) is added iff
the rook conditions hold" fails for a king away from column 4. -/
theorem castling_generation_iff_fails_off_home :
    (⟨0, 6⟩ : Position) ∈ getPieceMoves bOffHomeKing ⟨0, 5⟩ none false ∧
    bOffHomeKing 0 5 = some bKu ∧ bKu.type = PieceType.king ∧
    bKu.hasMoved = false ∧ bOffHomeKing 0 7 = none := by
  refine ⟨?_, ?_, ?_, ?_, ?_⟩ <;> decide

/-- Claim C1: every destination kept by `getLegalMoves` passes the check
simulation — moving the piece onto it on an independent copy of the
board (with the en passant victim removed when applicable, which is
exactly `simBoard`) leaves the mover's own king out of check. -/
theorem legalMoves_never_leave_own_king_in_check
    (b : Board) (p : Position) (lm : Option Move) (piece : Piece) (m : Position)
    (hp : b p.row p.col = some piece) (hm : m ∈ getLegalMoves b p lm) :
    isKingInCheck (simBoard b p piece m) piece.color = false := by
  unfold getLegalMoves at hm
  rw [hp] at hm
  have hf := List.of_mem_filter hm
  by_cases h1 : isKingInCheck (simBoard b p piece m) piece.color = true
  · simp [legalFilter, h1] at hf
  · simpa using h1

/-- Witness for C1: on the lone-white-king board the step to (7,5) is
legal, and the simulated board indeed reports no check for white. -/
theorem legalMoves_never_leave_own_king_in_check_witness :
    isKingInCheck (simBoard bLoneWK ⟨7, 4⟩ wKpc ⟨7, 5⟩) Color.white = false :=
  legalMoves_never_leave_own_king_in_check bLoneWK ⟨7, 4⟩ none wKpc ⟨7, 5⟩
    (by decide) (by decide)

/-- Claim C4: a king destination exactly two columns away (a castling
candidate) is excluded from `getLegalMoves` whenever the king is in
check on the original board, or the intermediate-square board (source
cleared, king copied one column toward the destination, rook left in
place) leaves the king in check. -/
theorem castling_candidate_excluded_when_check
    (b : Board) (p : Position) (lm : Option Move) (piece : Piece) (m : Position)
    (hp : b p.row p.col = some piece) (hk : piece.type = PieceType.king)
    (h2 : (m.col - p.col).natAbs = 2)
    (hbad : isKingInCheck b piece.color = true ∨
      isKingInCheck (castleStepBoard b p piece m) piece.color = true) :
    m ∉ getLegalMoves b p lm := by
  intro hm
  unfold getLegalMoves at hm
  rw [hp] at hm
  have hf := List.of_mem_filter hm
  by_cases hA : isKingInCheck (simBoard b p piece m) piece.color = true
  · simp [legalFilter, hA] at hf
  · rcases hbad with hb | hb
    · simp [legalFilter, hA, hk, h2, hb] at hf
    · by_cases hC : isKingInCheck b piece.color = true
      · simp [legalFilter, hA, hk, h2, hC] at hf
      · simp [legalFilter, hA, hk, h2, hC, hb] at hf

/-- Witness for C4: with the black castling layout and a white rook on
(4,4), black is in check, so the castling candidate (0,6) is not among
the legal moves of the king on (0,4). -/
theorem castling_candidate_excluded_when_check_witness :
    (⟨0, 6⟩ : Position) ∉ getLegalMoves bCastleChecked ⟨0, 4⟩ none :=
  castling_candidate_excluded_when_check bCastleChecked ⟨0, 4⟩ none bKu ⟨0, 6⟩
    (by decide) (by decide) (by decide) (Or.inl (by decide))

/-- Claim C6: a pawn is offered the two-square advance exactly when the
single-square advance is on-board and empty, the two-square target is
on-board and empty, and its `hasMoved` flag is false — with no condition
on the pawn's current rank. -/
theorem pawn_double_step_iff
    (b : Board) (p : Position) (lm : Option Move) (ig : Bool) (piece : Piece)
    (hp : b p.row p.col = some piece) (ht : piece.type = PieceType.pawn) :
    (⟨p.row + 2 * pawnDir piece.color, p.col⟩ : Position) ∈ getPieceMoves b p lm ig ↔
      isWithinBoard (p.row + pawnDir piece.color) p.col = true ∧
        b (p.row + pawnDir piece.color) p.col = none ∧
        isWithinBoard (p.row + 2 * pawnDir piece.color) p.col = true ∧
        b (p.row + 2 * pawnDir piece.color) p.col = none ∧
        piece.hasMoved = false := by
  have hdir : pawnDir piece.color = -1 ∨ pawnDir piece.color = 1 := by
    cases hc : piece.color <;> simp [pawnDir, hc]
  simp only [getPieceMoves, hp, ht, pawnMoves]
  constructor
  · intro hmem
    rcases List.mem_append.mp hmem with h3 | hep
    · rcases List.mem_append.mp h3 with h2 | hcapR
      · rcases List.mem_append.mp h2 with hfwd | hcapL
        · split at hfwd
          next hC1 =>
            rcases List.mem_cons.mp hfwd with heq | htail
            · exfalso
              injection heq with hr hc
              rcases hdir with h | h <;> rw [h] at hr <;> omega
            · split at htail
              next hC2 => exact ⟨hC1.1, hC1.2, hC2.2.1, hC2.2.2, hC2.1⟩
              next hC2 => simp at htail
          next hC1 => simp at hfwd
        · exfalso
          obtain ⟨heq, -⟩ := mem_addEnemy hcapL
          injection heq with hr hc
          omega
      · exfalso
        obtain ⟨heq, -⟩ := mem_addEnemy hcapR
        injection heq with hr hc
        omega
    · exfalso
      cases lm with
      | none => simp [enPassantSquares] at hep
      | some l =>
        simp only [enPassantSquares] at hep
        split at hep
        next hcond =>
          have heq := List.mem_singleton.mp hep
          injection heq with hr hc
          rcases hdir with h | h <;> rw [h] at hr <;> omega
        next hcond => simp at hep
  · rintro ⟨w1, e1, w2, e2, hmv⟩
    apply List.mem_append.mpr; left
    apply List.mem_append.mpr; left
    apply List.mem_append.mpr; left
    rw [if_pos ⟨w1, e1⟩]
    apply List.mem_cons.mpr; right
    rw [if_pos ⟨hmv, w2, e2⟩]
    exact List.mem_singleton.mpr rfl

/-- Claim C7 amended: for a piece on an in-range square, every
destination produced by `getPieceMoves` is within the board, except
possibly the en passant destination, which the source pushes without an
`isWithinBoard` gate: a destination outside the board is necessarily the
square `(p.row + dir, lastMove.to.col)` of a pawn's en passant rule. -/
theorem moves_within_board_except_en_passant
    (b : Board) (p : Position) (lm : Option Move) (ig : Bool) (piece : Piece)
    (m : Position) (hp : b p.row p.col = some piece)
    (hw : isWithinBoard p.row p.col = true) (hm : m ∈ getPieceMoves b p lm ig) :
    isWithinBoard m.row m.col = true ∨
      (piece.type = PieceType.pawn ∧ ∃ l, lm = some l ∧
        m = ⟨p.row + pawnDir piece.color, l.toSq.col⟩) := by
  cases hpt : piece.type with
  | pawn =>
    simp only [getPieceMoves, hp, hpt, pawnMoves] at hm
    rcases List.mem_append.mp hm with h3 | hep
    · left
      rcases List.mem_append.mp h3 with h2 | hcapR
      · rcases List.mem_append.mp h2 with hfwd | hcapL
        · split at hfwd
          next hC1 =>
            rcases List.mem_cons.mp hfwd with heq | htail
            · subst heq; exact hC1.1
            · split at htail
              next hC2 =>
                have heq := List.mem_singleton.mp htail
                subst heq; exact hC2.2.1
              next hC2 => simp at htail
          next hC1 => simp at hfwd
        · obtain ⟨rfl, hwb⟩ := mem_addEnemy hcapL; exact hwb
      · obtain ⟨rfl, hwb⟩ := mem_addEnemy hcapR; exact hwb
    · right
      refine ⟨rfl, ?_⟩
      cases lm with
      | none => simp [enPassantSquares] at hep
      | some l =>
        simp only [enPassantSquares] at hep
        split at hep
        next hcond => exact ⟨l, rfl, List.mem_singleton.mp hep⟩
        next hcond => simp at hep
  | knight =>
    simp only [getPieceMoves, hp, hpt] at hm
    exact Or.inl (mem_knightMoves_within hm)
  | bishop =>
    simp only [getPieceMoves, hp, hpt] at hm
    exact Or.inl (mem_sliderMoves_within hm)
  | rook =>
    simp only [getPieceMoves, hp, hpt] at hm
    exact Or.inl (mem_sliderMoves_within hm)
  | queen =>
    simp only [getPieceMoves, hp, hpt] at hm
    exact Or.inl (mem_sliderMoves_within hm)
  | king =>
    left
    simp only [getPieceMoves, hp, hpt] at hm
    rcases List.mem_append.mp hm with h | h
    · exact mem_kingBasicMoves_within h
    · have hrow : 0 ≤ p.row ∧ p.row < 8 := by
        rw [isWithinBoard_iff] at hw
        exact ⟨hw.1, hw.2.1⟩
      unfold castleMoves at h
      split at h
      next hcm =>
        rcases List.mem_append.mp h with h | h
        · split at h
          next rk hrk =>
            split at h
            next hcond =>
              have heq := List.mem_singleton.mp h
              subst heq
              rw [isWithinBoard_iff]
              refine ⟨hrow.1, hrow.2, by norm_num, by norm_num⟩
            next hcond => simp at h
          next hrk => simp at h
        · split at h
          next rk hrk =>
            split at h
            next hcond =>
              have heq := List.mem_singleton.mp h
              subst heq
              rw [isWithinBoard_iff]
              refine ⟨hrow.1, hrow.2, by norm_num, by norm_num⟩
            next hcond => simp at h
          next hrk => simp at h
      next hcm => simp at h

/-- Claim C8: on a board whose 64 scanned squares hold no king of color
`c`, `findKing` returns the sentinel (-1,-1) and `isKingInCheck`
reports not-in-check instead of failing. -/
theorem no_king_reports_no_check (b : Board) (c : Color)
    (h : ∀ r cc : Int, 0 ≤ r → r < 8 → 0 ≤ cc → cc < 8 → ∀ pc : Piece,
        b r cc = some pc → ¬(pc.type = PieceType.king ∧ pc.color = c)) :
    findKing b c = ⟨-1, -1⟩ ∧ isKingInCheck b c = false := by
  have hfind : squares64.find? (fun sq =>
      match b sq.row sq.col with
      | some p => decide (p.type = PieceType.king) && decide (p.color = c)
      | none => false) = none := by
    rw [List.find?_eq_none]
    intro sq hsq
    obtain ⟨h0, h1, h2, h3⟩ := mem_squares64_bounds hsq
    cases hb : b sq.row sq.col with
    | none => simp [hb]
    | some pc =>
      have hnk := h sq.row sq.col h0 h1 h2 h3 pc hb
      simp only [hb, Bool.and_eq_true, decide_eq_true_eq]
      exact fun hcontra => hnk hcontra
  have hfk : findKing b c = ⟨-1, -1⟩ := by
    unfold findKing
    rw [hfind]
  refine ⟨hfk, ?_⟩
  simp only [isKingInCheck]
  rw [hfk]
  simp

/-- Witness for C8: on the empty board, `findKing` yields the sentinel
and white is reported as not in check. -/
theorem no_king_reports_no_check_witness :
    findKing emptyBoard Color.white = ⟨-1, -1⟩ ∧
      isKingInCheck emptyBoard Color.white = false :=
  no_king_reports_no_check emptyBoard Color.white
    (fun r cc _ _ _ _ pc hpc =>
      Option.noConfusion (show (none : Option Piece) = some pc from hpc))

/-- Witness for the amended C7: the knight destination (2,1) of a black
knight on (0,0) is within the board (left disjunct). -/
theorem moves_within_board_except_en_passant_witness :
    isWithinBoard ((⟨2, 1⟩ : Position)).row ((⟨2, 1⟩ : Position)).col = true ∨
      (bNpc.type = PieceType.pawn ∧ ∃ l, (none : Option Move) = some l ∧
        (⟨2, 1⟩ : Position) = ⟨(⟨0, 0⟩ : Position).row + pawnDir bNpc.color, l.toSq.col⟩) :=
  moves_within_board_except_en_passant (boardOfList [(0, 0, bNpc)]) ⟨0, 0⟩ none false
    bNpc ⟨2, 1⟩ (by decide) (by decide) (by decide)

/-- Claim C5 amended: for a king on its home column 4 that has not
moved, with `ignoreCastling = false`, the kingside square (row,6) is
generated iff an unmoved rook stands on (row,7) and columns 5 and 6 of
the row are empty, and the queenside square (row,2) is generated iff an
unmoved rook stands on (row,0) and columns 1, 2 and 3 are empty; no
attack condition enters.  (Away from column 4 the one-step rule can add
those squares, and the source tests the fixed columns, so the claim's
strictly-between reading only holds at column 4.) -/
theorem castling_generation_iff_home_column
    (b : Board) (p : Position) (lm : Option Move) (piece : Piece)
    (hp : b p.row p.col = some piece) (hk : piece.type = PieceType.king)
    (hmv : piece.hasMoved = false) (hc4 : p.col = 4) :
    ((⟨p.row, 6⟩ : Position) ∈ getPieceMoves b p lm false ↔
      (∃ rk, b p.row 7 = some rk ∧ rk.type = PieceType.rook ∧ rk.hasMoved = false) ∧
        b p.row 5 = none ∧ b p.row 6 = none) ∧
    ((⟨p.row, 2⟩ : Position) ∈ getPieceMoves b p lm false ↔
      (∃ rk, b p.row 0 = some rk ∧ rk.type = PieceType.rook ∧ rk.hasMoved = false) ∧
        b p.row 1 = none ∧ b p.row 2 = none ∧ b p.row 3 = none) := by
  have hbasic6 : (⟨p.row, 6⟩ : Position) ∉ kingBasicMoves b piece.color p := by
    intro h
    have hcols := mem_kingBasicMoves_col h
    simp only at hcols
    omega
  have hbasic2 : (⟨p.row, 2⟩ : Position) ∉ kingBasicMoves b piece.color p := by
    intro h
    have hcols := mem_kingBasicMoves_col h
    simp only at hcols
    omega
  simp only [getPieceMoves, hp, hk, castleMoves, hmv, eq_self_iff_true, and_self, if_true]
  constructor
  · constructor
    · intro h
      rcases List.mem_append.mp h with h | h
      · exact absurd h hbasic6
      rcases List.mem_append.mp h with h | h
      · split at h
        next rk hrk =>
          split at h
          next hcond => exact ⟨⟨rk, hrk, hcond.1, hcond.2.1⟩, hcond.2.2.1, hcond.2.2.2⟩
          next hcond => simp at h
        next hrk => simp at h
      · exfalso
        split at h
        next rk hrk =>
          split at h
          next hcond =>
            have heq := List.mem_singleton.mp h
            injection heq with hr hc
            exact absurd hc (by decide)
          next hcond => simp at h
        next hrk => simp at h
    · rintro ⟨⟨rk, hrk, hty, hmv2⟩, h5, h6⟩
      apply List.mem_append.mpr; right
      apply List.mem_append.mpr; left
      rw [hrk]
      show (⟨p.row, 6⟩ : Position) ∈
        (if rk.type = PieceType.rook ∧ rk.hasMoved = false ∧
            b p.row 5 = none ∧ b p.row 6 = none then
          [(⟨p.row, 6⟩ : Position)] else [])
      rw [if_pos ⟨hty, hmv2, h5, h6⟩]
      exact List.mem_singleton.mpr rfl
  · constructor
    · intro h
      rcases List.mem_append.mp h with h | h
      · exact absurd h hbasic2
      rcases List.mem_append.mp h with h | h
      · exfalso
        split at h
        next rk hrk =>
          split at h
          next hcond =>
            have heq := List.mem_singleton.mp h
            injection heq with hr hc
            exact absurd hc (by decide)
          next hcond => simp at h
        next hrk => simp at h
      · split at h
        next rk hrk =>
          split at h
          next hcond =>
            exact ⟨⟨rk, hrk, hcond.1, hcond.2.1⟩, hcond.2.2.1, hcond.2.2.2.1, hcond.2.2.2.2⟩
          next hcond => simp at h
        next hrk => simp at h
    · rintro ⟨⟨rk, hrk, hty, hmv2⟩, h1, h2, h3⟩
      apply List.mem_append.mpr; right
      apply List.mem_append.mpr; right
      rw [hrk]
      show (⟨p.row, 2⟩ : Position) ∈
        (if rk.type = PieceType.rook ∧ rk.hasMoved = false ∧
            b p.row 1 = none ∧ b p.row 2 = none ∧ b p.row 3 = none then
          [(⟨p.row, 2⟩ : Position)] else [])
      rw [if_pos ⟨hty, hmv2, h1, h2, h3⟩]
      exact List.mem_singleton.mpr rfl

/-- Witness for the amended C5: with an unmoved black king on (0,4), an
unmoved black rook on (0,7) and empty squares between, the kingside
castling destination (0,6) is generated. -/
theorem castling_generation_iff_home_column_witness :
    (⟨0, 6⟩ : Position) ∈ getPieceMoves bCastleReady ⟨0, 4⟩ none false :=
  (castling_generation_iff_home_column bCastleReady ⟨0, 4⟩ none bKu
      (by decide) (by decide) (by decide) (by decide)).1.mpr
    ⟨⟨bRu, by decide, by decide, by decide⟩, by decide, by decide⟩

/-- Witness for C6: the unmoved black pawn on (1,0) with both squares
ahead empty is offered the double step to (3,0). -/
theorem pawn_double_step_iff_witness :
    (⟨3, 0⟩ : Position) ∈ getPieceMoves bPawnStart ⟨1, 0⟩ none false := by
  have h := (pawn_double_step_iff bPawnStart ⟨1, 0⟩ none false bPu
      (by decide) (by decide)).mpr (by refine ⟨?_, ?_, ?_, ?_, ?_⟩ <;> decide)
  simpa [pawnDir, bPu] using h

/-- Claim C9: the algebraic text produced by the source agrees, for
in-range columns and rows, with the format stated by the spec — "O-O" /
"O-O-O" exactly for two-column king moves with no check or mate suffix,
and otherwise archetype letter, capture marking (with the pawn's origin
file), destination file and rank, and "#" / "+" suffix. -/
theorem algebraic_text_matches_spec (fromSq toSq : Position) (piece : Piece)
    (captured check mate : Bool)
    (hf0 : 0 ≤ fromSq.col) (hf8 : fromSq.col < 8)
    (ht0 : 0 ≤ toSq.col) (ht8 : toSq.col < 8)
    (hr0 : 0 ≤ toSq.row) (hr8 : toSq.row < 8) :
    toAlgebraicText fromSq toSq piece captured check mate =
      algebraicSpecText fromSq toSq piece captured check mate := by
  unfold toAlgebraicText algebraicSpecText
  by_cases hcas : piece.type = PieceType.king ∧ (fromSq.col - toSq.col).natAbs = 2
  · rw [if_pos hcas]
    have h2 : fromSq.col - toSq.col = 2 ∨ fromSq.col - toSq.col = -2 := by
      have := hcas.2
      omega
    by_cases hgt : toSq.col > fromSq.col
    · have hplus : toSq.col = fromSq.col + 2 := by omega
      rw [if_pos hgt, if_pos ⟨hcas.1, hplus⟩]
    · have hminus : toSq.col = fromSq.col - 2 := by omega
      have hnot : ¬(piece.type = PieceType.king ∧ toSq.col = fromSq.col + 2) := by
        intro hx
        exact absurd hx.2 (by omega)
      rw [if_neg hgt, if_neg hnot, if_pos ⟨hcas.1, hminus⟩]
  · have hn1 : ¬(piece.type = PieceType.king ∧ toSq.col = fromSq.col + 2) := by
      intro hx
      exact hcas ⟨hx.1, by omega⟩
    have hn2 : ¬(piece.type = PieceType.king ∧ toSq.col = fromSq.col - 2) := by
      intro hx
      exact hcas ⟨hx.1, by omega⟩
    rw [if_neg hcas, if_neg hn1, if_neg hn2, pieceLetterJS_eq_spec,
      colLetterJS_eq_spec hf0 hf8, colLetterJS_eq_spec ht0 ht8,
      rowDigitJS_eq_spec hr0 hr8]

/-- Claim C2: whenever `executeMove` commits a move, the side to move
flips, and the resulting state is classified from the next side's legal
moves and check status: no moves and check gives checkmate with the
mover as winner, no moves without check gives stalemate with a drawn
winner, and otherwise the game is playing with no winner. -/
theorem executeMove_terminal_classification
    (prev : GameStateSlice) (fromSq toSq : Position) (promo : Option PieceType)
    (res : ExecResult) (h : executeMove prev fromSq toSq promo = some res) :
    res.currentPlayer = oppositeColor prev.currentPlayer ∧
    ((getAllLegalMoves res.board res.currentPlayer (some res.lastMove) = [] ∧
        isKingInCheck res.board res.currentPlayer = true) →
      res.status = GameStatus.CHECKMATE ∧
        res.winner = some (WinnerVal.color prev.currentPlayer)) ∧
    ((getAllLegalMoves res.board res.currentPlayer (some res.lastMove) = [] ∧
        isKingInCheck res.board res.currentPlayer = false) →
      res.status = GameStatus.STALEMATE ∧ res.winner = some WinnerVal.draw) ∧
    (getAllLegalMoves res.board res.currentPlayer (some res.lastMove) ≠ [] →
      res.status = GameStatus.PLAYING ∧ res.winner = none) := by
  unfold executeMove at h
  split at h
  next hsrc => exact Option.noConfusion h
  next p0 hsrc =>
    dsimp only at h
    split at h
    next hcst => exact Option.noConfusion h
    next nb1 isC hcst =>
      exact finishMove_classification prev fromSq toSq promo nb1 isC _ _ res
        (Option.some.inj h).symm

/-- The white queen of the mate witness, after moving. -/
def pieceMateQ : Piece := { wQpc with hasMoved := true }

/-- The result of committing the mating queen move (1,1) → (1,6) on the
mate-witness state. -/
def resMate : ExecResult :=
  finishMove prevMate ⟨1, 1⟩ ⟨1, 6⟩ none prevMate.board false pieceMateQ
    (prevMate.board 1 6)

/-- Witness for C2: the committed queen move to g7 yields checkmate with
white as winner. -/
theorem executeMove_terminal_classification_witness :
    resMate.status = GameStatus.CHECKMATE ∧
      resMate.winner = some (WinnerVal.color Color.white) := by
  have h : executeMove prevMate ⟨1, 1⟩ ⟨1, 6⟩ none = some resMate := rfl
  have hmate := (executeMove_terminal_classification prevMate ⟨1, 1⟩ ⟨1, 6⟩ none
    resMate h).2.1 ⟨by decide, by decide⟩
  refine ⟨hmate.1, ?_⟩
  rw [hmate.2]
  rfl

/-- Witness for C9: a pawn capture from e2 onto d3 with check renders
identically under the source and the spec description. -/
theorem algebraic_text_matches_spec_witness :
    toAlgebraicText ⟨6, 4⟩ ⟨5, 3⟩ wPpc true true false =
      algebraicSpecText ⟨6, 4⟩ ⟨5, 3⟩ wPpc true true false :=
  algebraic_text_matches_spec ⟨6, 4⟩ ⟨5, 3⟩ wPpc true true false
    (by decide) (by decide) (by decide) (by decide) (by decide) (by decide)

end Chess
